import Mathlib

/-!
Shallow embedding of the deadzone-aware frame distribution engine of the
create_montage repository (files create_montage.claude.py and
video_montage.dev.py), together with theorems checking the natural-language
specification against it.

Python integers are embedded as `Int`.  Python floats are embedded as exact
fractions (`PyFloat`, an integer numerator over a positive integer
denominator, kept unreduced): every concrete input evaluated below keeps all
of the program's float computations exact in IEEE doubles, so the exact
fraction coincides with the value the program computes, and every comparison
decided below is decided identically.  Python lists of ints are `Array Int`,
and fallible code returns `Except String`.  Uncaught Python exceptions
(`ZeroDivisionError`, `ValueError`, `UnboundLocalError`, `NameError`,
`IndexError`) and `sys.exit(1)` all terminate the process and are modelled
as `Except.error` values.  The recursive distributor takes a fuel argument;
running out of fuel is an error, so an `Except.ok` result is a genuinely
terminating run.
-/

namespace Montage

/-! ### Exact model of Python float arithmetic -/

/-- An exact fraction standing for a Python float value: `num / den` with
`den` kept positive by the smart constructors below.  No gcd normalization
is performed; comparisons cross-multiply. -/
structure PyFloat where
  num : Int
  den : Int
deriving Repr, DecidableEq

/-- Builds a fraction with a positive denominator (assuming `d ≠ 0`). -/
def PyFloat.mk2 (n d : Int) : PyFloat := if d < 0 then ⟨-n, -d⟩ else ⟨n, d⟩

/-- The float value of an integer. -/
def PyFloat.ofInt (n : Int) : PyFloat := ⟨n, 1⟩

/-- Float addition. -/
def PyFloat.add (a b : PyFloat) : PyFloat :=
  ⟨a.num * b.den + b.num * a.den, a.den * b.den⟩

/-- Float subtraction. -/
def PyFloat.sub (a b : PyFloat) : PyFloat :=
  ⟨a.num * b.den - b.num * a.den, a.den * b.den⟩

/-- Float multiplication. -/
def PyFloat.mul (a b : PyFloat) : PyFloat := ⟨a.num * b.num, a.den * b.den⟩

/-- Float division (callers guard against a zero divisor, where Python
raises `ZeroDivisionError`). -/
def PyFloat.div (a b : PyFloat) : PyFloat := mk2 (a.num * b.den) (a.den * b.num)

/-- Python `x ** 2`. -/
def PyFloat.sq (a : PyFloat) : PyFloat := a.mul a

/-- Value comparison `a < b` (valid for positive denominators). -/
def PyFloat.blt (a b : PyFloat) : Bool := decide (a.num * b.den < b.num * a.den)

/-- Value test `a == 0.0` (valid for nonzero denominators). -/
def PyFloat.isZero (a : PyFloat) : Bool := decide (a.num = 0)

/-- Python `int()` applied to a float: truncation toward zero, which on a
fraction with positive denominator is the `Int.tdiv` quotient. -/
def pyInt (q : PyFloat) : Int := q.num.tdiv q.den

/-- Python `0.5`. -/
def pyHalf : PyFloat := ⟨1, 2⟩

/-- Python `1.5`. -/
def pyThreeHalves : PyFloat := ⟨3, 2⟩

/-! ### Python primitive helpers -/

/-- Python list read `a[i]` on a list of ints: negative indices count from
the end; out of range raises `IndexError`. -/
def pyGet (a : Array Int) (i : Int) : Except String Int :=
  let j : Int := if i < 0 then i + a.size else i
  if h : 0 ≤ j ∧ j.toNat < a.size then .ok (a.get ⟨j.toNat, h.2⟩)
  else .error "IndexError"

/-- Python list write `a[i] = v`, with the same index semantics. -/
def pySet (a : Array Int) (i : Int) (v : Int) : Except String (Array Int) :=
  let j : Int := if i < 0 then i + a.size else i
  if h : 0 ≤ j ∧ j.toNat < a.size then .ok (a.set ⟨j.toNat, h.2⟩ v)
  else .error "IndexError"

/-- Reading a Python local that may never have been assigned
(`UnboundLocalError` if it was not). -/
def getLocal (o : Option Int) : Except String Int :=
  match o with
  | some v => .ok v
  | none => .error "UnboundLocalError"

/-- Lexicographic `≤` on pairs of integers: the order Python uses to compare
2-tuples of ints. -/
def keyLe (p q : Int × Int) : Prop := p.1 < q.1 ∨ (p.1 = q.1 ∧ p.2 ≤ q.2)

instance : DecidableRel keyLe := fun p q =>
  if h1 : p.1 < q.1 then .isTrue (Or.inl h1)
  else if h2 : p.1 = q.1 ∧ p.2 ≤ q.2 then .isTrue (Or.inr h2)
  else .isFalse (fun hc => hc.elim h1 h2)

/-- Lexicographic `<` on pairs of integers. -/
def keyLt (p q : Int × Int) : Prop := p.1 < q.1 ∨ (p.1 = q.1 ∧ p.2 < q.2)

instance : DecidableRel keyLt := fun p q =>
  if h1 : p.1 < q.1 then .isTrue (Or.inl h1)
  else if h2 : p.1 = q.1 ∧ p.2 < q.2 then .isTrue (Or.inr h2)
  else .isFalse (fun hc => hc.elim h1 h2)

/-- Decidable equality for `Except` results, by cases. -/
instance exceptDecEq {ε α : Type} [DecidableEq ε] [DecidableEq α] :
    DecidableEq (Except ε α)
  | .error a, .error b =>
    if h : a = b then .isTrue (by rw [h]) else .isFalse (by simp [h])
  | .error _, .ok _ => .isFalse (by simp)
  | .ok _, .error _ => .isFalse (by simp)
  | .ok a, .ok b =>
    if h : a = b then .isTrue (by rw [h]) else .isFalse (by simp [h])

/-- Python `max(iterable, key=key, default=None)`: the first element whose
key is maximal (later elements replace the current best only when their key
is strictly larger). -/
def pyMaxByKey {α : Type} (key : α → Int × Int) : List α → Option α
  | [] => none
  | x :: xs => some (xs.foldl (fun b y => if keyLt (key b) (key y) then y else b) x)

/-! ### Deadzone store -/

/-- Function `count_available_frames(start, end)` of video_montage.dev.py:
the width of `[start, end]` minus the overlap with every stored deadzone. -/
def count_available_frames (dzs : List (Int × Int)) (start fin : Int) : Int :=
  dzs.foldl
    (fun avail dz =>
      if dz.2 < start ∨ dz.1 > fin then avail
      else avail - (min fin dz.2 - max start dz.1 + 1))
    (fin - start + 1)

/-- The merge loop of `add_deadzone`, carrying the interval most recently
appended to `merged` (whose end the loop may still extend). -/
def mergeAux (cs ce : Int) : List (Int × Int) → List (Int × Int)
  | [] => [(cs, ce)]
  | (s, e) :: rest =>
    if s > ce + 1 then (cs, ce) :: mergeAux s e rest
    else mergeAux cs (max ce e) rest

/-- Merge pass over a sorted interval list: a new interval is opened only
when the next start is more than one past the current end. -/
def mergeDeadzones : List (Int × Int) → List (Int × Int)
  | [] => []
  | (s, e) :: rest => mergeAux s e rest

/-- Function `add_deadzone(start, end)` of both files: `end = end or start`
(Python falsy default, so a passed `0` becomes `start`), append the interval,
sort by the tuple order, merge adjacent or overlapping intervals.  The merged
list is what is persisted and reloaded into the store. -/
def add_deadzone (dzs : List (Int × Int)) (s e : Int) : List (Int × Int) :=
  let e2 := if e = 0 then s else e
  mergeDeadzones (List.insertionSort (fun a b => keyLe a b) (dzs ++ [(s, e2)]))

/-- The deadzone store invariant: every interval has a nonnegative start and
`start ≤ end`, the list is sorted by start, and consecutive intervals are
separated by a gap of at least one frame (`end + 1 < next start`). -/
def dzInvB : List (Int × Int) → Bool
  | [] => true
  | [(s, e)] => decide (0 ≤ s) && decide (s ≤ e)
  | (s, e) :: (s2, e2) :: rest =>
    decide (0 ≤ s) && decide (s ≤ e) && decide (e + 1 < s2) &&
      dzInvB ((s2, e2) :: rest)

/-- Is frame `f` inside some stored deadzone? -/
def inDeadzone (dzs : List (Int × Int)) (f : Int) : Bool :=
  dzs.any fun dz => decide (dz.1 ≤ f) && decide (f ≤ dz.2)

/-! ### Grid optimizers -/

/-- Comparison `d < bound` where `bound = none` stands for `float('inf')`
(the initial value of `MIN_RATIO_DIFF` / `best_diff`). -/
def ltInf (d : PyFloat) : Option PyFloat → Bool
  | none => true
  | some m => d.blt m

/-- Comparison `last < d` where `last = none` stands for `float('inf')`
(the per-row initial value of `LAST_X_DIFF`). -/
def infLt (l : Option PyFloat) (d : PyFloat) : Bool :=
  match l with
  | none => false
  | some v => v.blt d

/-- Python expression `int((y * TARGET_RATIO * FRAME_HEIGHT) / FRAME_WIDTH)`:
the first column count whose grid ratio is at or below the target. -/
def gridStartX (FW FH : Int) (TR : PyFloat) (y : Int) : Int :=
  pyInt ((((PyFloat.ofInt y).mul TR).mul (PyFloat.ofInt FH)).div (PyFloat.ofInt FW))

/-- Python expression `end_x = target_cols if target_cols else avail // y`
(falsy test, so a fixed column count of `0` falls back to the budget bound). -/
def gridEndX (targetCols : Option Int) (avail y : Int) : Int :=
  match targetCols with
  | some c => if c = 0 then avail.fdiv y else c
  | none => avail.fdiv y

/-- Python `start_y, end_y = (target_rows, target_rows) if target_rows else
(1, avail)` (falsy test again). -/
def gridYRange (targetRows : Option Int) (avail : Int) : Int × Int :=
  match targetRows with
  | some r => if r = 0 then (1, avail) else (r, r)
  | none => (1, avail)

/-- The squared difference between the grid ratio of `x` columns by `y` rows
of frames sized `FW x FH` and the target ratio:
`((x * FRAME_WIDTH) / (y * FRAME_HEIGHT) - TARGET_RATIO) ** 2`. -/
def ratioDiff (FW FH : Int) (TR : PyFloat) (x y : Int) : PyFloat :=
  (((PyFloat.ofInt (x * FW)).div (PyFloat.ofInt (y * FH))).sub TR).sq

/-- Inner `x` loop of `find_optimal_grid` in video_montage.dev.py: the budget
check `x * y > available` comes first and breaks, then the ratio-difference
update with the early exit once the difference grows again.  State threaded:
current minimum difference, last difference in this row, current best grid. -/
def devGridInner (FW FH : Int) (TR : PyFloat) (y avail : Int) :
    Nat → Int → Option PyFloat → Option PyFloat → Option (Int × Int) →
      Option PyFloat × Option (Int × Int)
  | 0, _, mind, _, best => (mind, best)
  | k+1, x, mind, lastd, best =>
    if x * y > avail then (mind, best)
    else
      let d := ratioDiff FW FH TR x y
      if ltInf d mind then
        devGridInner FW FH TR y avail k (x+1) (some d) (some d) (some (x, y))
      else if infLt lastd d then (mind, best)
      else devGridInner FW FH TR y avail k (x+1) mind (some d) best

/-- Outer `y` loop of `find_optimal_grid` in video_montage.dev.py (this
variant has no early exit of the outer loop). -/
def devGridOuter (FW FH : Int) (TR : PyFloat) (avail : Int) (targetCols : Option Int) :
    Nat → Int → Option PyFloat → Option (Int × Int) → Option (Int × Int)
  | 0, _, _, best => best
  | k+1, y, mind, best =>
    let sx := gridStartX FW FH TR y
    let ex := gridEndX targetCols avail y
    let r := devGridInner FW FH TR y avail ((ex - sx + 1).toNat) sx mind none best
    devGridOuter FW FH TR avail targetCols k (y+1) r.1 r.2

/-- Function `find_optimal_grid` of video_montage.dev.py.  It ends with
`return best_grid`; when no candidate was ever recorded that name was never
assigned and Python raises `UnboundLocalError`. -/
def dev_find_optimal_grid (FW FH W H avail : Int) (targetRows targetCols : Option Int) :
    Except String (Int × Int) :=
  let TR := (PyFloat.ofInt W).div (PyFloat.ofInt H)
  let yr := gridYRange targetRows avail
  match devGridOuter FW FH TR avail targetCols ((yr.2 - yr.1 + 1).toNat) yr.1 none none with
  | some g => .ok g
  | none => .error "UnboundLocalError"

/-- Inner `x` loop of `find_optimal_grid` in create_montage.claude.py: same
update and early-exit logic but with no budget check inside the loop. -/
def claudeGridInner (FW FH : Int) (TR : PyFloat) (y : Int) :
    Nat → Int → Option PyFloat → Option PyFloat → Option (Int × Int) →
      Option PyFloat × Option (Int × Int)
  | 0, _, mind, _, best => (mind, best)
  | k+1, x, mind, lastd, best =>
    let d := ratioDiff FW FH TR x y
    if ltInf d mind then
      claudeGridInner FW FH TR y k (x+1) (some d) (some d) (some (x, y))
    else if infLt lastd d then (mind, best)
    else claudeGridInner FW FH TR y k (x+1) mind (some d) best

/-- Outer `y` loop of `find_optimal_grid` in create_montage.claude.py: breaks
out of the whole search once `start_x * y > available`. -/
def claudeGridOuter (FW FH : Int) (TR : PyFloat) (avail : Int) (targetCols : Option Int) :
    Nat → Int → Option PyFloat → Option (Int × Int) → Option (Int × Int)
  | 0, _, _, best => best
  | k+1, y, mind, best =>
    let sx := gridStartX FW FH TR y
    if sx * y > avail then best
    else
      let ex := gridEndX targetCols avail y
      let r := claudeGridInner FW FH TR y ((ex - sx + 1).toNat) sx mind none best
      claudeGridOuter FW FH TR avail targetCols k (y+1) r.1 r.2

/-- Function `find_optimal_grid` of create_montage.claude.py.  It records the
best grid in the globals `COLS, ROWS`; when nothing was recorded the
`print(f"Optimal grid: {COLS}x{ROWS}")` that follows raises `NameError`. -/
def claude_find_optimal_grid (FW FH W H avail : Int) (targetRows targetCols : Option Int) :
    Except String (Int × Int) :=
  let TR := (PyFloat.ofInt W).div (PyFloat.ofInt H)
  let yr := gridYRange targetRows avail
  match claudeGridOuter FW FH TR avail targetCols ((yr.2 - yr.1 + 1).toNat) yr.1 none none with
  | some g => .ok g
  | none => .error "NameError"

/-! ### Frame distributor: shared pieces -/

/-- Result of the slot classification loop against a deadzone `[ds, de]`:
counts of slots strictly left of / inside / strictly right of the deadzone,
plus the Python locals `left_end_image` and `right_start_image`.  Those two
locals are assigned only when a slot of the matching class is seen, so they
stay unbound — or keep a stale value from a previous candidate — otherwise. -/
structure Classify where
  dead : Int
  left : Int
  right : Int
  left_end : Option Int
  right_start : Option Int
deriving Repr, DecidableEq

/-- One step of the classification loop over slot indices, `k` iterations
remaining, current index `i`. -/
def classifyAux (img : Array Int) (ds de : Int) :
    Nat → Int → Classify → Except String Classify
  | 0, _, c => .ok c
  | k+1, i, c => do
    let v ← pyGet img i
    let c :=
      if v < ds then { c with left := c.left + 1, left_end := some i }
      else if ds ≤ v ∧ v ≤ de then
        { c with dead := c.dead + 1, right_start := some (i+1) }
      else if v > de then { c with right := c.right + 1 }
      else c
    classifyAux img ds de k (i+1) c

/-- Classify every slot in `[mini, maxi]`, starting from possibly stale
`left_end_image` / `right_start_image` locals. -/
def classifySlots (img : Array Int) (ds de mini maxi : Int) (le0 rs0 : Option Int) :
    Except String Classify :=
  classifyAux img ds de ((maxi - mini + 1).toNat) mini
    { dead := 0, left := 0, right := 0, left_end := le0, right_start := rs0 }

/-- Sort and selection key used for deadzones, from the lambda
`(x[1] - x[0] + 1, -abs((x[0] + x[1]) // 2 - center))`: interval length, then
negated distance of the interval midpoint from the range center. -/
def dzKey (center : Int) (dz : Int × Int) : Int × Int :=
  (dz.2 - dz.1 + 1, -|((dz.1 + dz.2).fdiv 2) - center|)

/-- The stored deadzones whose span intersects `[minf, maxf]`
(filter condition `min_frame <= dead_end and dead_start <= max_frame`). -/
def intersectingDZ (dzs : List (Int × Int)) (minf maxf : Int) : List (Int × Int) :=
  dzs.filter fun dz => decide (minf ≤ dz.2 ∧ dz.1 ≤ maxf)

/-- First-minimizer scan: Python `best_diff = float('inf'); best_move_left =
0; for move_left in range(D + 1): ...` keeps the first strict improvement.
Seeding the state with `f 0` at `move_left = 0` is the same computation,
because the first comparison against infinity always succeeds. -/
def firstMinAux (f : Int → PyFloat) : Nat → Int → PyFloat → Int → Int
  | 0, _, _, bm => bm
  | k+1, m, bd, bm =>
    if (f m).blt bd then firstMinAux f k (m+1) (f m) m
    else firstMinAux f k (m+1) bd bm

/-- The first `m ∈ [0, D]` minimizing `f`. -/
def firstMin (f : Int → PyFloat) (D : Int) : Int :=
  firstMinAux f D.toNat 1 (f 0) 0

/-- Squared density difference objective of create_montage.claude.py
(lines 165-169): `((images_left + move_left) / spaces_left -
(images_right + move_right) / spaces_right) ** 2`. -/
def densityDiffSq (SL SR L R D m : Int) : PyFloat :=
  (((PyFloat.ofInt (L + m)).div (PyFloat.ofInt SL)).sub
    ((PyFloat.ofInt (R + (D - m))).div (PyFloat.ofInt SR))).sq

/-- Move-split selection of create_montage.claude.py (lines 161-181):
exhaustive density balance when both sides have positive space, otherwise all
dead slots to the side with positive space, otherwise `sys.exit(1)`. -/
def claudeChooseMove (SL SR L R D : Int) : Except String (Int × Int) :=
  if SL > 0 ∧ SR > 0 then
    let mL := firstMin (densityDiffSq SL SR L R D) D
    .ok (mL, D - mL)
  else if SL > 0 then .ok (D, 0)
  else if SR > 0 then .ok (0, D)
  else .error "No adjacent spaces"

/-- Squared step difference objective of video_montage.dev.py ALGORITHM 2
(lines 203-205): per-side step `spaces / (images - 1)`, with the fallback
`spaces * 1.5` when the side would hold at most one image. -/
def stepDiffSq (SL SR L R D m : Int) : PyFloat :=
  let ls :=
    if L + m > 1 then (PyFloat.ofInt SL).div (PyFloat.ofInt (L + m - 1))
    else (PyFloat.ofInt SL).mul pyThreeHalves
  let rs :=
    if R + (D - m) > 1 then (PyFloat.ofInt SR).div (PyFloat.ofInt (R + (D - m) - 1))
    else (PyFloat.ofInt SR).mul pyThreeHalves
  (ls.sub rs).sq

/-- Move-split selection of video_montage.dev.py (lines 189-220).  The
`ideal_step` prelude runs before the algorithm branch, so
`total_images == 1` raises `ZeroDivisionError` for either algorithm, and
under ALGORITHM 1 so does `ideal_step == 0`.  ALGORITHM 1 is the closed-form
estimate `min(dead, max(0, int(spaces_left / ideal_step - images_left +
0.5)))`; ALGORITHM 2 is the exhaustive step balance with the zero-space
special cases. -/
def devChooseMove (algo : Nat) (SL SR L R D : Int) : Except String (Int × Int) :=
  let total_images := L + R + D
  if total_images - 1 = 0 then .error "ZeroDivisionError"
  else
    let ideal_step := (PyFloat.ofInt (SL + SR)).div (PyFloat.ofInt (total_images - 1))
    if algo = 1 then
      if ideal_step.isZero then .error "ZeroDivisionError"
      else
        let mL := min D (max 0 (pyInt
          ((((PyFloat.ofInt SL).div ideal_step).sub (PyFloat.ofInt L)).add pyHalf)))
        .ok (mL, D - mL)
    else if algo = 2 then
      if SL > 0 ∧ SR > 0 then
        let mL := firstMin (stepDiffSq SL SR L R D) D
        .ok (mL, D - mL)
      else if SL > 0 then .ok (D, 0)
      else if SR > 0 then .ok (0, D)
      else .error "No adjacent spaces"
    else .error "Invalid algorithm choice"

/-! ### Distributor of video_montage.dev.py -/

/-- Single-slot branch of dev `dist_images` (lines 121-128): a strictly
interior slot is re-centered to `(start_frame + end_frame) // 2` (Python
floor division); a slot sitting at `0` or `TOTAL_FRAMES - 1` (or outside) is
"special" and left untouched.  Returns the image array and `jump`. -/
def devCenterSingle (N sf ef : Int) (img : Array Int) (i : Int) :
    Except String (Array Int × Int) := do
  let frame ← pyGet img i
  if 0 < frame ∧ frame < N - 1 then
    let v := (sf + ef).fdiv 2
    let img2 ← pySet img i v
    .ok (img2, v - frame)
  else
    .ok (img, 0)

/-- The frame computed for slot `i` when spreading from `start_frame` with
the given step: `int(start_frame + ((i - start_image) * step) + 0.5)`. -/
def spreadFrame (sf : Int) (step : PyFloat) (si i : Int) : Int :=
  pyInt (((PyFloat.ofInt sf).add ((PyFloat.ofInt (i - si)).mul step)).add pyHalf)

/-- Multi-slot spreading loop of dev `dist_images` (lines 134-146): walks
from `start_image` toward but excluding `end_image`, records the first
change as `jump`, and breaks after two consecutive slots already held the
computed frame. -/
def devSpread (sf : Int) (step : PyFloat) (si dir : Int) :
    Nat → Int → Array Int → Int → Int → Except String (Array Int × Int)
  | 0, _, img, jump, _ => .ok (img, jump)
  | k+1, i, img, jump, skip => do
    let frame := spreadFrame sf step si i
    let cur ← pyGet img i
    let jump := if jump = 0 then frame - cur else jump
    if cur = frame then
      if skip + 1 > 1 then .ok (img, jump)
      else do
        let img ← pySet img i frame
        devSpread sf step si dir k (i + dir) img jump (skip + 1)
    else do
      let img ← pySet img i frame
      devSpread sf step si dir k (i + dir) img jump 0

/-- Candidate loop of dev `dist_images` (lines 153-182): walk the
intersecting deadzones in ascending `(length, -distance)` order, classify the
slots against each, and stop at the first with at least one dead slot.
`left_end_image` / `right_start_image` are plain Python locals, so each
iteration starts from whatever values the previous iteration left behind. -/
def devFindTarget (img : Array Int) (mini maxi : Int) :
    List (Int × Int) → Option Int → Option Int →
      Except String (Option ((Int × Int) × Classify))
  | [], _, _ => .ok none
  | dz :: rest, le0, rs0 => do
    let c ← classifySlots img dz.1 dz.2 mini maxi le0 rs0
    if c.dead > 0 then .ok (some (dz, c))
    else devFindTarget img mini maxi rest c.left_end c.right_start

/-- Deadzone selection step of dev `dist_images`: sort the intersecting
deadzones ascending by `(length, -distance-from-center)` and process the
first one that contains a currently assigned slot. -/
def devSelectTarget (dzs : List (Int × Int)) (sf ef : Int) (img : Array Int)
    (si ei : Int) : Except String (Option ((Int × Int) × Classify)) :=
  let minf := min sf ef
  let maxf := max sf ef
  let center := (sf + ef).fdiv 2
  let sorted := List.insertionSort
    (fun a b => keyLe (dzKey center a) (dzKey center b)) (intersectingDZ dzs minf maxf)
  devFindTarget img (min si ei) (max si ei) sorted none none

/-- Function `dist_images` of video_montage.dev.py on explicit state.  The
`iter == 1` test (a call for the full range `[0, TOTAL_FRAMES - 1]`) resets
the image array to the sentinel `TOTAL_FRAMES - 1`.  Fuel bounds the
recursion depth; running out of fuel is an error, so `Except.ok` results are
terminating runs.  Returns the image array together with the Python return
value `(jump, step)`. -/
def dev_dist_images (N : Int) (M : Nat) (dzs : List (Int × Int)) (algo : Nat) :
    Nat → Int → Int → Int → Int → Array Int →
      Except String (Array Int × Int × PyFloat)
  | 0, _, _, _, _, _ => .error "fuel"
  | fuel+1, sf, ef, si, ei, img0 => do
    let img0 := if sf = 0 ∧ ef = N - 1 then Array.mkArray M (N - 1) else img0
    let (img, jump, step) ←
      if si = ei then do
        let r ← devCenterSingle N sf ef img0 si
        pure (r.1, r.2, PyFloat.ofInt 0)
      else do
        let dir : Int := if ei > si then 1 else -1
        let step := (PyFloat.ofInt (ef - sf)).div (PyFloat.ofInt (ei - si))
        let r ← devSpread sf step si dir (ei - si).natAbs si img0 0 0
        pure (r.1, r.2, step)
    let minf := min sf ef
    let maxf := max sf ef
    match ← devSelectTarget dzs sf ef img si ei with
    | none => pure (img, jump, step)
    | some ((ds, de), c) => do
      let SL := count_available_frames dzs minf (ds - 1)
      let SR := count_available_frames dzs (de + 1) maxf
      let (mL, mR) ← devChooseMove algo SL SR c.left c.right c.dead
      let mini := min si ei
      let maxi := max si ei
      let (img, sub_jump, sub_step) ←
        if mL > 0 then do
          let le ← getLocal c.left_end
          dev_dist_images N M dzs algo fuel (ds - 1) minf (le + mL) mini img
        else pure (img, (0 : Int), PyFloat.ofInt 0)
      if mR > 0 ∨ (sub_jump ≠ 0 ∧ c.right > 0) then do
        let rs ← getLocal c.right_start
        let erm ←
          if sub_jump ≠ 0 then do
            let step_erm := (PyFloat.ofInt (ds - 1)).add sub_step
            let v ← pyGet img (rs - mR)
            let jump_erm : Int := v + sub_jump
            pure (max (de + 1)
              (pyInt (((step_erm.add (PyFloat.ofInt jump_erm)).div
                (PyFloat.ofInt 2)).add pyHalf)))
          else pure (de + 1)
        let (img, sj2, ss2) ← dev_dist_images N M dzs algo fuel erm maxf (rs - mR) maxi img
        if mL = 0 ∧ c.left > 0 then do
          let le ← getLocal c.left_end
          let step_erm := (PyFloat.ofInt (de + 1)).sub ss2
          let v ← pyGet img le
          let jump_erm : Int := v + sj2
          let erm2 := min (ds - 1)
            (pyInt (((step_erm.add (PyFloat.ofInt jump_erm)).div
              (PyFloat.ofInt 2)).add pyHalf))
          let (img, _, _) ← dev_dist_images N M dzs algo fuel erm2 minf (le + mL) mini img
          pure (img, jump, step)
        else pure (img, jump, step)
      else pure (img, jump, step)

/-- A full top-level distribution run of video_montage.dev.py:
`dist_images()` over frames `[0, N-1]` and slots `[0, M-1]`. -/
def devRun (N : Int) (M : Nat) (dzs : List (Int × Int)) (algo : Nat) (fuel : Nat) :
    Except String (List Int) :=
  (dev_dist_images N M dzs algo fuel 0 (N-1) 0 ((M : Int) - 1)
    (Array.mkArray M (N - 1))).map (fun r => r.1.toList)

/-! ### Distributor of create_montage.claude.py -/

/-- Multi-slot spreading loop of claude `dist_images` (lines 110-116): walks
from `start_image` to `end_image` inclusive; breaks when the slot index
value occurs among the stored frame values (Python `i in image` is value
membership in the list) and the computed frame equals the stored one. -/
def claudeSpread (sf : Int) (step : PyFloat) (si dir : Int) :
    Nat → Int → Array Int → Except String (Array Int)
  | 0, _, img => .ok img
  | k+1, i, img => do
    let frame := spreadFrame sf step si i
    let cur ← pyGet img i
    if img.toList.contains i ∧ frame = cur then .ok img
    else do
      let img ← pySet img i frame
      claudeSpread sf step si dir k (i + dir) img

/-- Function `dist_images` of create_montage.claude.py on explicit state.
Peculiarities kept from the source: the Python falsy defaults
`end_frame = end_frame or TOTAL_FRAMES - 1` and `end_image = end_image or
TOTAL_IMAGES - 1` rewrite a passed `0`; `start_frame == -1` turns deadzone
handling off, and `start_frame = max(0, start_frame)`; and the single-slot
branch sets `direction = 0` and then runs
`for i in range(start_image, end_image + direction, direction)`, whose zero
step makes Python raise `ValueError` (after the slot was re-centered). -/
def claude_dist_images (N : Int) (M : Nat) (dzs : List (Int × Int)) :
    Nat → Int → Int → Int → Int → Array Int → Except String (Array Int)
  | 0, _, _, _, _, _ => .error "fuel"
  | fuel+1, sf0, ef0, si, ei0, img0 => do
    let ignore := sf0 = -1
    let sf := max 0 sf0
    let ef := if ef0 = 0 then N - 1 else ef0
    let ei := if ei0 = 0 then (M : Int) - 1 else ei0
    if si = ei then do
      let frame ← pyGet img0 si
      let _ ←
        if 0 < frame ∧ frame < N - 1 then pySet img0 si ((sf + ef).fdiv 2)
        else pure img0
      .error "ValueError"
    else do
      let dir : Int := if ei > si then 1 else -1
      let step := (PyFloat.ofInt (ef - sf)).div (PyFloat.ofInt (ei - si))
      let img ← claudeSpread sf step si dir ((ei - si).natAbs + 1) si img0
      if ignore then pure img
      else do
        let minf := min sf ef
        let maxf := max sf ef
        let center := (sf + ef).fdiv 2
        match pyMaxByKey (dzKey center) (intersectingDZ dzs minf maxf) with
        | none => pure img
        | some (ds, de) => do
          let mini := min si ei
          let maxi := max si ei
          let c ← classifySlots img ds de mini maxi none none
          if c.dead = 0 then pure img
          else do
            let SL := ds - minf
            let SR := maxf - de
            let (mL, mR) ← claudeChooseMove SL SR c.left c.right c.dead
            let (img, erm) ←
              if mL > 0 then do
                let le ← getLocal c.left_end
                let img ← claude_dist_images N M dzs fuel (ds - 1) minf (le + mL) mini img
                pure (img, ds - 1)
              else pure (img, (0 : Int))
            if c.right > 0 then do
              let erm := if erm < de + 1 then de + 1 else erm
              let rs ← getLocal c.right_start
              let img ← claude_dist_images N M dzs fuel erm maxf (rs - mR) maxi img
              if mL = 0 ∧ c.left > 0 then do
                let le ← getLocal c.left_end
                claude_dist_images N M dzs fuel (min (ds - 1) (de + 1)) minf (le + mL) mini img
              else pure img
            else pure img

/-- A full top-level distribution run of create_montage.claude.py: the main
block sets `image = [-1] * TOTAL_IMAGES` and calls `dist_images()`. -/
def claudeRun (N : Int) (M : Nat) (dzs : List (Int × Int)) (fuel : Nat) :
    Except String (List Int) :=
  (claude_dist_images N M dzs fuel 0 (N-1) 0 ((M : Int) - 1)
    (Array.mkArray M (-1))).map Array.toList

/-! ### Definitions following the specification text (for comparison) -/

/-- Follows the spec's words, for comparison with the code: the midpoint of
`[a, b]` as "`(frame_lo+frame_hi)/2` (integer, round-half-up)", that is,
the half-up rounding of `(a + b) / 2`. -/
def specMidpointHalfUp (a b : Int) : Int := (a + b + 1).fdiv 2

/-! ### Order facts about the float model -/

/-- Strict comparison is irreflexive. -/
theorem PyFloat.blt_irrefl (a : PyFloat) : a.blt a = false := by
  simp [PyFloat.blt]

/-- Strict comparison is asymmetric. -/
theorem PyFloat.blt_asymm {a b : PyFloat} (h : a.blt b = true) : b.blt a = false := by
  simp [PyFloat.blt] at h ⊢
  linarith

/-- Strict comparison is transitive on fractions with positive denominators. -/
theorem PyFloat.blt_trans {a b c : PyFloat} (ha : 0 < a.den) (hb : 0 < b.den)
    (hc : 0 < c.den) (h1 : a.blt b = true) (h2 : b.blt c = true) : a.blt c = true := by
  simp [PyFloat.blt] at h1 h2 ⊢
  have h3 : a.num * c.den * b.den < c.num * a.den * b.den := by nlinarith
  exact lt_of_mul_lt_mul_right h3 (le_of_lt hb)

/-- From `a < b` and `b ≤ c` (as the negation of `c < b`), `a < c`. -/
theorem PyFloat.blt_of_blt_of_not_blt {a b c : PyFloat} (ha : 0 < a.den)
    (hb : 0 < b.den) (hc : 0 < c.den) (h1 : a.blt b = true) (h2 : c.blt b = false) :
    a.blt c = true := by
  simp [PyFloat.blt] at h1 h2 ⊢
  have h3 : a.num * c.den * b.den < c.num * a.den * b.den := by nlinarith
  exact lt_of_mul_lt_mul_right h3 (le_of_lt hb)

/-- Denominator positivity for the sign-normalizing constructor. -/
theorem PyFloat.mk2_den_pos {n d : Int} (hd : d ≠ 0) : 0 < (PyFloat.mk2 n d).den := by
  unfold PyFloat.mk2
  split <;> simp <;> omega

/-- The objective scanned by ALGORITHM 2 always has a positive denominator. -/
theorem stepDiffSq_den_pos (SL SR L R D m : Int) : 0 < (stepDiffSq SL SR L R D m).den := by
  unfold stepDiffSq
  have hls : ∀ p : PyFloat, 0 < p.den → 0 < (p.mul p).den := fun p hp => by
    simp [PyFloat.mul]; positivity
  apply hls
  simp only [PyFloat.sub]
  have h1 : 0 < (if L + m > 1 then (PyFloat.ofInt SL).div (PyFloat.ofInt (L + m - 1))
      else (PyFloat.ofInt SL).mul pyThreeHalves).den := by
    split
    · apply PyFloat.mk2_den_pos
      simp [PyFloat.ofInt]
      omega
    · simp [PyFloat.mul, PyFloat.ofInt, pyThreeHalves]
  have h2 : 0 < (if R + (D - m) > 1 then (PyFloat.ofInt SR).div (PyFloat.ofInt (R + (D - m) - 1))
      else (PyFloat.ofInt SR).mul pyThreeHalves).den := by
    split
    · apply PyFloat.mk2_den_pos
      simp [PyFloat.ofInt]
      omega
    · simp [PyFloat.mul, PyFloat.ofInt, pyThreeHalves]
  positivity

/-- The density objective has a positive denominator when both space counts
are nonzero. -/
theorem densityDiffSq_den_pos (SL SR L R D m : Int) (hSL : SL ≠ 0) (hSR : SR ≠ 0) :
    0 < (densityDiffSq SL SR L R D m).den := by
  unfold densityDiffSq
  have h1 : 0 < ((PyFloat.ofInt (L + m)).div (PyFloat.ofInt SL)).den := by
    apply PyFloat.mk2_den_pos
    simp [PyFloat.ofInt, hSL]
  have h2 : 0 < ((PyFloat.ofInt (R + (D - m))).div (PyFloat.ofInt SR)).den := by
    apply PyFloat.mk2_den_pos
    simp [PyFloat.ofInt, hSR]
  simp only [PyFloat.sq, PyFloat.mul, PyFloat.sub]
  positivity

/-! ### The first-minimizer property of the exhaustive scans -/

/-- `m` is the first minimizer of `f` on `[0, D]`: it is in range, no value
beats it, and it strictly beats every earlier index. -/
def IsFirstMin (f : Int → PyFloat) (D m : Int) : Prop :=
  0 ≤ m ∧ m ≤ D ∧ (∀ k, 0 ≤ k → k ≤ D → (f k).blt (f m) = false) ∧
    (∀ k, 0 ≤ k → k < m → (f m).blt (f k) = true)

theorem firstMinAux_spec (f : Int → PyFloat) (hden : ∀ j, 0 < (f j).den) :
    ∀ (k : Nat) (m bm : Int), 0 ≤ bm → bm < m →
      (∀ j, 0 ≤ j → j < m → (f j).blt (f bm) = false) →
      (∀ j, 0 ≤ j → j < bm → (f bm).blt (f j) = true) →
      0 ≤ firstMinAux f k m (f bm) bm ∧
      firstMinAux f k m (f bm) bm < m + (k : Int) ∧
      (∀ j, 0 ≤ j → j < m + (k : Int) →
        (f j).blt (f (firstMinAux f k m (f bm) bm)) = false) ∧
      (∀ j, 0 ≤ j → j < firstMinAux f k m (f bm) bm →
        (f (firstMinAux f k m (f bm) bm)).blt (f j) = true) := by
  intro k
  induction k with
  | zero =>
    intro m bm h0 h1 h3 h4
    refine ⟨h0, by simpa using h1, ?_, h4⟩
    intro j hj0 hj1
    exact h3 j hj0 (by omega)
  | succ k ih =>
    intro m bm h0 h1 h3 h4
    by_cases hstep : (f m).blt (f bm) = true
    · have heq : firstMinAux f (k+1) m (f bm) bm = firstMinAux f k (m+1) (f m) m := by
        simp [firstMinAux, hstep]
      rw [heq]
      have h3n : ∀ j, 0 ≤ j → j < m + 1 → (f j).blt (f m) = false := by
        intro j hj0 hj1
        rcases lt_or_ge j m with hjm | hjm
        · exact PyFloat.blt_asymm
            (PyFloat.blt_of_blt_of_not_blt (hden m) (hden bm) (hden j) hstep (h3 j hj0 hjm))
        · have : j = m := by omega
          rw [this]
          exact PyFloat.blt_irrefl _
      have h4n : ∀ j, 0 ≤ j → j < m → (f m).blt (f j) = true := by
        intro j hj0 hj1
        rcases lt_or_ge j bm with hjb | hjb
        · exact PyFloat.blt_trans (hden m) (hden bm) (hden j) hstep (h4 j hj0 hjb)
        · exact PyFloat.blt_of_blt_of_not_blt (hden m) (hden bm) (hden j) hstep
            (h3 j hj0 (by omega))
      have := ih (m+1) m (by omega) (by omega) h3n h4n
      refine ⟨this.1, by push_cast at this ⊢; omega, ?_, this.2.2.2⟩
      intro j hj0 hj1
      exact this.2.2.1 j hj0 (by push_cast at hj1 ⊢; omega)
    · have hstep2 : (f m).blt (f bm) = false := by
        simpa using hstep
      have heq : firstMinAux f (k+1) m (f bm) bm = firstMinAux f k (m+1) (f bm) bm := by
        simp [firstMinAux, hstep2]
      rw [heq]
      have h3n : ∀ j, 0 ≤ j → j < m + 1 → (f j).blt (f bm) = false := by
        intro j hj0 hj1
        rcases lt_or_ge j m with hjm | hjm
        · exact h3 j hj0 hjm
        · have : j = m := by omega
          rw [this]; exact hstep2
      have := ih (m+1) bm h0 (by omega) h3n h4
      refine ⟨this.1, by push_cast at this ⊢; omega, ?_, this.2.2.2⟩
      intro j hj0 hj1
      exact this.2.2.1 j hj0 (by push_cast at hj1 ⊢; omega)

/-- The exhaustive scan returns the first minimizer of its objective. -/
theorem firstMin_spec (f : Int → PyFloat) (hden : ∀ j, 0 < (f j).den) (D : Int)
    (hD : 0 ≤ D) : IsFirstMin f D (firstMin f D) := by
  have h3 : ∀ j, 0 ≤ j → j < (1 : Int) → (f j).blt (f 0) = false := by
    intro j hj0 hj1
    have : j = 0 := by omega
    rw [this]; exact PyFloat.blt_irrefl _
  have h4 : ∀ j, 0 ≤ j → j < (0 : Int) → (f 0).blt (f j) = true := by
    intro j hj0 hj1; omega
  have := firstMinAux_spec f hden D.toNat 1 0 le_rfl (by omega) h3 h4
  have htn : ((D.toNat : Nat) : Int) = D := Int.toNat_of_nonneg hD
  unfold firstMin
  refine ⟨this.1, by omega, ?_, this.2.2.2⟩
  intro k hk0 hk1
  exact this.2.2.1 k hk0 (by omega)

/-! ### Theorems for the frozen claims (part 1) -/

/-- C1: the spec's "no live-avoidable overlap" invariant fails on
create_montage.claude.py.  The full top-level run with `TOTAL_FRAMES = 7`,
`TOTAL_IMAGES = 6` and the single stored deadzone `[1, 5]` terminates
normally with assignment `[0, 1, 6, 6, 6, 6]`: slot 1 keeps frame 1, inside
the deadzone, although the live frames 0 and 6 lie in every enclosing
sub-range (the top-level range itself is `[0, 6]`).  The `or`-falsy defaults
rewrite the left recursion `dist_images(0, 0, 2, 0)` into a walk over frames
`[0, 6]` and slots `[2, 5]`, so slot 1 is never re-homed. -/
theorem claude_run_leaves_dead_slot :
    claudeRun 7 6 [(1, 5)] 60 = .ok [0, 1, 6, 6, 6, 6] ∧
      inDeadzone [(1, 5)] 1 = true ∧
      inDeadzone [(1, 5)] 0 = false ∧ inDeadzone [(1, 5)] 6 = false :=
  ⟨by decide, by decide, by decide, by decide⟩

/-- C2 counterexample: with `N = 100`, no deadzones and `M = 5`, the claimed
assignment `[0, 25, 50, 75, 99]` is not what a full run produces (slot 3
computes `int(3 * 24.75 + 0.5) = 74`). -/
theorem dist_run_not_expected_assignment :
    devRun 100 5 [] 1 50 ≠ .ok [0, 25, 50, 75, 99] ∧
      claudeRun 100 5 [] 50 ≠ .ok [0, 25, 50, 75, 99] :=
  ⟨by decide, by decide⟩

/-- C2 (amended): the full run at `N = 100`, `M = 5`, no deadzones produces
`[0, 25, 50, 74, 99]` in both files (and under both dev algorithm variants):
endpoints pinned, interior slots at `int(i * 24.75 + 0.5)`, so slot 3 gets
74 because 74.25 rounds down. -/
theorem dist_run_concrete_assignment :
    devRun 100 5 [] 1 50 = .ok [0, 25, 50, 74, 99] ∧
      devRun 100 5 [] 2 50 = .ok [0, 25, 50, 74, 99] ∧
      claudeRun 100 5 [] 50 = .ok [0, 25, 50, 74, 99] :=
  ⟨by decide, by decide, by decide⟩

/-- C10: a reachable division by zero in video_montage.dev.py under
ALGORITHM 1.  The full run with `N = 10`, `M = 2` and deadzone `[5, 9]`
first moves the lone dead slot right (into zero space), then the recursive
call `dist_images(10, 9, 1, 1)` classifies its single slot as dead with
`total_images = 1`, and `ideal_step = total_spaces / (total_images - 1)`
raises `ZeroDivisionError`. -/
theorem dev_run_zero_division :
    devRun 10 2 [(5, 9)] 1 30 = .error "ZeroDivisionError" := by decide

/-- C3 counterexample: at the reachable correction step of the run
`N = 91`, `M = 10`, deadzone `[5, 55]`, ALGORITHM 2 (where
`spaces_left = 5`, `spaces_right = 35`, `images_left = 1`,
`images_right = 4`, `dead = 5`), the code chooses `move_left = 1`, while the
first minimizer of the claimed squared-density objective is `0`. -/
theorem algo2_moveLeft_not_density_minimizer :
    devChooseMove 2 5 35 1 4 5 = .ok (1, 4) ∧
      firstMin (densityDiffSq 5 35 1 4 5) 5 = 0 ∧ (1 : Int) ≠ 0 :=
  ⟨by decide, by decide, by decide⟩

/-- C3 (amended): ALGORITHM 2 of video_montage.dev.py chooses the first
`move_left ∈ [0, dead]` minimizing the squared *step* difference
`stepDiffSq` (per-side step `spaces / (images - 1)` with the `1.5 * spaces`
fallback), not the squared density difference; its `spaces` inputs are the
deadzone-excluded `count_available_frames` counts, not raw index widths. -/
theorem algo2_moveLeft_first_step_minimizer (SL SR L R D : Int)
    (hSL : 0 < SL) (hSR : 0 < SR) (hD : 0 ≤ D) (htot : L + R + D ≠ 1) :
    devChooseMove 2 SL SR L R D =
      .ok (firstMin (stepDiffSq SL SR L R D) D,
        D - firstMin (stepDiffSq SL SR L R D) D) ∧
    IsFirstMin (stepDiffSq SL SR L R D) D (firstMin (stepDiffSq SL SR L R D) D) := by
  constructor
  · have h1 : ¬(L + R + D - 1 = 0) := by omega
    simp [devChooseMove, h1, hSL, hSR]
  · exact firstMin_spec _ (fun j => stepDiffSq_den_pos SL SR L R D j) D hD

theorem algo2_moveLeft_first_step_minimizer_witness :
    devChooseMove 2 5 35 1 4 5 =
      .ok (firstMin (stepDiffSq 5 35 1 4 5) 5,
        5 - firstMin (stepDiffSq 5 35 1 4 5) 5) ∧
    IsFirstMin (stepDiffSq 5 35 1 4 5) 5 (firstMin (stepDiffSq 5 35 1 4 5) 5) :=
  algo2_moveLeft_first_step_minimizer 5 35 1 4 5 (by decide) (by decide)
    (by decide) (by decide)

/-- C5 counterexample: ALGORITHM 1 of video_montage.dev.py applies no
zero-space special casing.  At the reachable correction step of the run
`N = 10`, `M = 2`, deadzone `[5, 9]` (`spaces_left = 5 > 0`,
`spaces_right = 0`, `images_left = 1`, `images_right = 0`, `dead = 1`) the
claim demands all dead slots move left, i.e. `(move_left, move_right) =
(1, 0)`, but the closed-form estimate yields `(0, 1)` — the lone dead slot
is sent to the zero-space side. -/
theorem algo1_moves_dead_to_zero_space_side :
    devChooseMove 1 5 0 1 0 1 = .ok (0, 1) ∧
      ((0, 1) : Int × Int) ≠ (1, 0) :=
  ⟨by decide, by decide⟩

/-- C5 (amended): the one-sided-space policy holds for the claude algorithm
and for dev ALGORITHM 2: with at least one dead slot, if exactly one side
has positive space all dead slots move to that side, and if neither side
has positive space the run exits fatally ("No adjacent spaces", `sys.exit`).
Dev ALGORITHM 2 additionally requires the `ideal_step` prelude not to
divide by zero (`images_left + images_right + dead ≠ 1`). -/
theorem one_sided_space_policy (SL SR L R D : Int) (_hD : 0 < D) :
    (0 < SL ∧ ¬ 0 < SR →
      claudeChooseMove SL SR L R D = .ok (D, 0) ∧
      (L + R + D ≠ 1 → devChooseMove 2 SL SR L R D = .ok (D, 0))) ∧
    (¬ 0 < SL ∧ 0 < SR →
      claudeChooseMove SL SR L R D = .ok (0, D) ∧
      (L + R + D ≠ 1 → devChooseMove 2 SL SR L R D = .ok (0, D))) ∧
    (¬ 0 < SL ∧ ¬ 0 < SR →
      claudeChooseMove SL SR L R D = .error "No adjacent spaces" ∧
      (L + R + D ≠ 1 → devChooseMove 2 SL SR L R D = .error "No adjacent spaces")) := by
  refine ⟨fun h => ⟨?_, fun htot => ?_⟩, fun h => ⟨?_, fun htot => ?_⟩,
    fun h => ⟨?_, fun htot => ?_⟩⟩
  · simp [claudeChooseMove, h.1, h.2]
  · have h1 : ¬(L + R + D - 1 = 0) := by omega
    simp [devChooseMove, h1, h.1, h.2]
  · simp [claudeChooseMove, h.1, h.2]
  · have h1 : ¬(L + R + D - 1 = 0) := by omega
    simp [devChooseMove, h1, h.1, h.2]
  · simp [claudeChooseMove, h.1, h.2]
  · have h1 : ¬(L + R + D - 1 = 0) := by omega
    simp [devChooseMove, h1, h.1, h.2]

theorem one_sided_space_policy_witness :
    claudeChooseMove 3 0 1 0 2 = .ok (2, 0) ∧
      devChooseMove 2 3 0 1 0 2 = .ok (2, 0) := by
  have h := (one_sided_space_policy 3 0 1 0 2 (by decide)).1 ⟨by decide, by decide⟩
  exact ⟨h.1, h.2 (by decide)⟩

/-- C6 counterexample: a single-slot call over frames `[1, 2]` with the
slot's current frame strictly interior re-centers it to
`(1 + 2) // 2 = 1`, not to the round-half-up midpoint
`specMidpointHalfUp 1 2 = 2` the claim states. -/
theorem single_slot_midpoint_floor_counterexample :
    devCenterSingle 4 1 2 #[1] 0 = .ok (#[1], 0) ∧
      specMidpointHalfUp 1 2 = 2 ∧ pyGet #[1] 0 = .ok 1 ∧ (1 : Int) ≠ 2 :=
  ⟨by decide, by decide, by decide, by decide⟩

theorem exBind_ok {ε α β : Type} (a : α) (f : α → Except ε β) :
    (Except.ok a >>= f) = f a := rfl

theorem exBind_error {ε α β : Type} (e : ε) (f : α → Except ε β) :
    ((Except.error e : Except ε α) >>= f) = Except.error e := rfl

/-- A write to an index a read succeeded at also succeeds. -/
theorem pySet_ok_exists (a : Array Int) (i f v : Int) (h : pyGet a i = .ok f) :
    ∃ b, pySet a i v = .ok b := by
  simp only [pyGet] at h
  simp only [pySet]
  by_cases hcond : (0 ≤ if i < 0 then i + (a.size : Int) else i) ∧
      (if i < 0 then i + (a.size : Int) else i).toNat < a.size
  · exact ⟨_, by rw [dif_pos hcond]⟩
  · rw [dif_neg hcond] at h
    exact Except.noConfusion h

/-- C6 (amended): in the single-slot branch of dev `dist_images`, a slot
whose current frame `f` satisfies `0 < f < N - 1` is reassigned the *floor*
midpoint `(frame_lo + frame_hi) // 2` (round half down); any other slot —
in particular one sitting at frame `0` or `N - 1` — is left untouched.  In
create_montage.claude.py every single-slot call instead raises `ValueError`:
the branch sets `direction = 0` and then runs
`range(start_image, end_image + direction, direction)` with step zero. -/
theorem single_slot_recenter_floor (N sf ef : Int) (img : Array Int) (i f : Int)
    (hget : pyGet img i = .ok f) :
    (0 < f ∧ f < N - 1 →
      devCenterSingle N sf ef img i =
        (pySet img i ((sf + ef).fdiv 2)).map (fun a => (a, (sf + ef).fdiv 2 - f))) ∧
    (¬(0 < f ∧ f < N - 1) → devCenterSingle N sf ef img i = .ok (img, 0)) ∧
    (∀ (M : Nat) (dzs : List (Int × Int)) (fuel : Nat) (sf0 ef0 ei0 : Int),
      i = (if ei0 = 0 then (M : Int) - 1 else ei0) →
      claude_dist_images N M dzs (fuel + 1) sf0 ef0 i ei0 img =
        .error "ValueError") := by
  refine ⟨?_, ?_, ?_⟩
  · intro hint
    unfold devCenterSingle
    rw [hget]
    show (if 0 < f ∧ f < N - 1 then _ else _) = _
    rw [if_pos hint]
    cases h2 : pySet img i ((sf + ef).fdiv 2) <;> rfl
  · intro hint
    unfold devCenterSingle
    rw [hget]
    show (if 0 < f ∧ f < N - 1 then _ else _) = _
    rw [if_neg hint]
  · intro M dzs fuel sf0 ef0 ei0 hei
    simp only [claude_dist_images]
    rw [if_pos hei]
    rw [hget, exBind_ok]
    by_cases hc : 0 < f ∧ f < N - 1
    · rw [if_pos hc]
      obtain ⟨b, hb⟩ := pySet_ok_exists img i f
        ((max 0 sf0 + if ef0 = 0 then N - 1 else ef0).fdiv 2) hget
      rw [hb, exBind_ok]
    · rw [if_neg hc]
      rfl

theorem single_slot_recenter_floor_witness :
    devCenterSingle 10 2 5 #[3] 0 =
      (pySet #[3] 0 (((2 : Int) + 5).fdiv 2)).map
        (fun a => (a, ((2 : Int) + 5).fdiv 2 - 3)) ∧
    claude_dist_images 10 1 [] (2 + 1) 2 5 0 0 #[3] = .error "ValueError" := by
  have h := single_slot_recenter_floor 10 2 5 #[3] 0 3 (by decide)
  exact ⟨h.1 (by decide), h.2.2 1 [] 2 2 5 0 (by decide)⟩

/-- C7 counterexample: with square frames, target ratio `12:5`, an
available-frame budget of 9 and `target_cols = 5` fixed, the claude
`find_optimal_grid` returns the grid `(5, 2)` whose 10 slots exceed the
budget (its inner scan has no `x * y <= available` check). -/
theorem claude_grid_exceeds_budget :
    claude_find_optimal_grid 1 1 12 5 9 none (some 5) = .ok (5, 2) ∧
      ¬ ((5 : Int) * 2 ≤ 9) :=
  ⟨by decide, by decide⟩

/-! ### Feasibility of the dev grid search -/

/-- Any grid recorded by the dev inner scan fits the budget: the scan breaks
on `x * y > available` before recording. -/
theorem devGridInner_feasible (FW FH : Int) (TR : PyFloat) (y avail : Int) :
    ∀ (k : Nat) (x : Int) (mind lastd : Option PyFloat) (best : Option (Int × Int)),
      (∀ g, best = some g → g.1 * g.2 ≤ avail) →
      ∀ g, (devGridInner FW FH TR y avail k x mind lastd best).2 = some g →
        g.1 * g.2 ≤ avail := by
  intro k
  induction k with
  | zero =>
    intro x mind lastd best hb g hg
    exact hb g hg
  | succ k ih =>
    intro x mind lastd best hb g hg
    simp only [devGridInner] at hg
    by_cases hxy : x * y > avail
    · rw [if_pos hxy] at hg
      exact hb g hg
    · rw [if_neg hxy] at hg
      by_cases h1 : ltInf (ratioDiff FW FH TR x y) mind = true
      · rw [if_pos h1] at hg
        refine ih (x+1) _ _ _ ?_ g hg
        intro g2 hg2
        cases hg2
        simpa using (by omega : x * y ≤ avail)
      · rw [if_neg h1] at hg
        by_cases h2 : infLt lastd (ratioDiff FW FH TR x y) = true
        · rw [if_pos h2] at hg
          exact hb g hg
        · rw [if_neg h2] at hg
          exact ih (x+1) _ _ _ hb g hg

/-- Any grid surviving the dev outer scan fits the budget. -/
theorem devGridOuter_feasible (FW FH : Int) (TR : PyFloat) (avail : Int)
    (tC : Option Int) :
    ∀ (k : Nat) (y : Int) (mind : Option PyFloat) (best : Option (Int × Int)),
      (∀ g, best = some g → g.1 * g.2 ≤ avail) →
      ∀ g, devGridOuter FW FH TR avail tC k y mind best = some g →
        g.1 * g.2 ≤ avail := by
  intro k
  induction k with
  | zero =>
    intro y mind best hb g hg
    exact hb g hg
  | succ k ih =>
    intro y mind best hb g hg
    simp only [devGridOuter] at hg
    refine ih (y+1) _ _ ?_ g hg
    intro g2 hg2
    exact devGridInner_feasible FW FH TR y avail _ _ _ _ _ hb g2 hg2

/-- C7 (amended): `find_optimal_grid` of video_montage.dev.py never returns
a grid whose slot count exceeds the available-frame budget, for every
combination of fixed or free rows and columns (its inner scan re-checks
`x * y > available` before recording a candidate).  The claude variant does
not re-check inside the scan and can exceed the budget when `target_cols`
is fixed. -/
theorem dev_grid_feasible (FW FH W H avail : Int) (tR tC : Option Int)
    (g : Int × Int) (h : dev_find_optimal_grid FW FH W H avail tR tC = .ok g) :
    g.1 * g.2 ≤ avail := by
  simp only [dev_find_optimal_grid] at h
  split at h
  next g2 heq =>
    injection h with h2
    subst h2
    exact devGridOuter_feasible FW FH _ avail tC _ _ _ _
      (fun g3 hg3 => Option.noConfusion hg3) _ heq
  next heq => cases h

theorem dev_grid_feasible_witness : (2 : Int) * 1 ≤ 6 :=
  dev_grid_feasible 1 1 16 9 6 none none (2, 1) (by decide)

/-! ### The grid search errors when nothing is feasible -/

/-- The dev inner scan leaves its state untouched when it has no iterations
or its very first candidate exceeds the budget. -/
theorem devGridInner_stuck (FW FH : Int) (TR : PyFloat) (y avail : Int)
    (k : Nat) (x : Int) (mind lastd : Option PyFloat) (best : Option (Int × Int))
    (h : k = 0 ∨ x * y > avail) :
    devGridInner FW FH TR y avail k x mind lastd best = (mind, best) := by
  cases k with
  | zero => rfl
  | succ k =>
    have hxy : x * y > avail := h.resolve_left (by simp)
    simp only [devGridInner]
    rw [if_pos hxy]

/-- If every candidate in the remaining rows exceeds the budget, the dev
outer scan never records a grid. -/
theorem devGridOuter_none (FW FH : Int) (TR : PyFloat) (avail : Int)
    (tC : Option Int) :
    ∀ (k : Nat) (y : Int) (mind : Option PyFloat),
      (∀ y2 x : Int, y ≤ y2 → y2 < y + (k : Int) →
        gridStartX FW FH TR y2 ≤ x → x ≤ gridEndX tC avail y2 → x * y2 > avail) →
      devGridOuter FW FH TR avail tC k y mind none = none := by
  intro k
  induction k with
  | zero => intro y mind _; rfl
  | succ k ih =>
    intro y mind hno
    simp only [devGridOuter]
    have hr : devGridInner FW FH TR y avail
        ((gridEndX tC avail y - gridStartX FW FH TR y + 1).toNat)
        (gridStartX FW FH TR y) mind none none = (mind, none) := by
      apply devGridInner_stuck
      by_cases hc : (gridEndX tC avail y - gridStartX FW FH TR y + 1).toNat = 0
      · exact Or.inl hc
      · refine Or.inr (hno y (gridStartX FW FH TR y) le_rfl (by push_cast; omega)
          le_rfl ?_)
        omega
    rw [hr]
    refine ih (y+1) mind ?_
    intro y2 x h1 h2 h3 h4
    exact hno y2 x (by omega) (by push_cast at h2 ⊢; omega) h3 h4

/-- If every candidate in the remaining rows exceeds the budget, the claude
outer scan never records a grid either: each row either breaks the whole
search at `start_x * y > available` or scans an empty column range. -/
theorem claudeGridOuter_none (FW FH : Int) (TR : PyFloat) (avail : Int)
    (tC : Option Int) :
    ∀ (k : Nat) (y : Int) (mind : Option PyFloat),
      (∀ y2 x : Int, y ≤ y2 → y2 < y + (k : Int) →
        gridStartX FW FH TR y2 ≤ x → x ≤ gridEndX tC avail y2 → x * y2 > avail) →
      claudeGridOuter FW FH TR avail tC k y mind none = none := by
  intro k
  induction k with
  | zero => intro y mind _; rfl
  | succ k ih =>
    intro y mind hno
    simp only [claudeGridOuter]
    by_cases hsb : gridStartX FW FH TR y * y > avail
    · rw [if_pos hsb]
    · rw [if_neg hsb]
      have hc : (gridEndX tC avail y - gridStartX FW FH TR y + 1).toNat = 0 := by
        by_contra hc
        exact hsb (hno y (gridStartX FW FH TR y) le_rfl (by push_cast; omega)
          le_rfl (by omega))
      rw [hc]
      simp only [claudeGridInner]
      refine ih (y+1) mind ?_
      intro y2 x h1 h2 h3 h4
      exact hno y2 x (by omega) (by push_cast at h2 ⊢; omega) h3 h4

/-- C8: when no candidate `(x, y)` in the searched range fits the budget
(`x * y ≤ available` fails everywhere), neither optimizer returns a grid:
the dev variant raises `UnboundLocalError` at `return best_grid` and the
claude variant raises `NameError` at the first later use of `COLS` — an
error in both files, never a stale or arbitrary grid. -/
theorem grid_no_feasible_candidate_errors (FW FH W H avail : Int)
    (tR tC : Option Int)
    (hno : ∀ y x : Int, (gridYRange tR avail).1 ≤ y → y ≤ (gridYRange tR avail).2 →
      gridStartX FW FH ((PyFloat.ofInt W).div (PyFloat.ofInt H)) y ≤ x →
      x ≤ gridEndX tC avail y → x * y > avail) :
    dev_find_optimal_grid FW FH W H avail tR tC = .error "UnboundLocalError" ∧
    claude_find_optimal_grid FW FH W H avail tR tC = .error "NameError" := by
  have hyp : ∀ y2 x : Int, (gridYRange tR avail).1 ≤ y2 →
      y2 < (gridYRange tR avail).1 +
        (((gridYRange tR avail).2 - (gridYRange tR avail).1 + 1).toNat : Int) →
      gridStartX FW FH ((PyFloat.ofInt W).div (PyFloat.ofInt H)) y2 ≤ x →
      x ≤ gridEndX tC avail y2 → x * y2 > avail := by
    intro y2 x h1 h2 h3 h4
    exact hno y2 x h1 (by omega) h3 h4
  constructor
  · simp only [dev_find_optimal_grid]
    rw [devGridOuter_none FW FH _ avail tC _ _ none hyp]
  · simp only [claude_find_optimal_grid]
    rw [claudeGridOuter_none FW FH _ avail tC _ _ none hyp]

theorem grid_no_feasible_candidate_errors_witness :
    dev_find_optimal_grid 1 1 16 9 0 none none = .error "UnboundLocalError" ∧
    claude_find_optimal_grid 1 1 16 9 0 none none = .error "NameError" :=
  grid_no_feasible_candidate_errors 1 1 16 9 0 none none
    (fun y x h1 h2 _ _ => absurd (le_trans h1 h2) (by decide))

/-! ### Order facts about the tuple keys -/

theorem keyLe_refl (p : Int × Int) : keyLe p p := Or.inr ⟨rfl, le_rfl⟩

theorem keyLe_trans {p q r : Int × Int} (h1 : keyLe p q) (h2 : keyLe q r) :
    keyLe p r := by
  rcases p with ⟨p1, p2⟩
  rcases q with ⟨q1, q2⟩
  rcases r with ⟨r1, r2⟩
  simp only [keyLe] at h1 h2 ⊢
  omega

theorem keyLe_total (p q : Int × Int) : keyLe p q ∨ keyLe q p := by
  rcases p with ⟨p1, p2⟩
  rcases q with ⟨q1, q2⟩
  simp only [keyLe]
  omega

/-! ### Classification counts do not depend on the stale locals -/

/-- The counts computed by the classification loop are independent of the
(possibly stale) initial `left_end_image` / `right_start_image` locals. -/
theorem classifyAux_counts (img : Array Int) (ds de : Int) :
    ∀ (k : Nat) (i : Int) (c1 c2 : Classify),
      c1.dead = c2.dead → c1.left = c2.left → c1.right = c2.right →
      (classifyAux img ds de k i c1).map (fun c => (c.dead, c.left, c.right)) =
        (classifyAux img ds de k i c2).map (fun c => (c.dead, c.left, c.right)) := by
  intro k
  induction k with
  | zero =>
    intro i c1 c2 h1 h2 h3
    simp [classifyAux, Except.map, h1, h2, h3]
  | succ k ih =>
    intro i c1 c2 h1 h2 h3
    simp only [classifyAux]
    cases hg : pyGet img i with
    | error e => rw [exBind_error, exBind_error]
    | ok v =>
      rw [exBind_ok, exBind_ok]
      split_ifs with hv1 hv2 hv3 <;>
        exact ih (i+1) _ _ (by simp [h1]) (by simp [h2]) (by simp [h3])

/-- Re-running the classification from unbound locals gives identical
counts. -/
theorem classifySlots_counts (img : Array Int) (ds de mini maxi : Int)
    (le0 rs0 : Option Int) (c : Classify)
    (h : classifySlots img ds de mini maxi le0 rs0 = .ok c) :
    ∃ c2, classifySlots img ds de mini maxi none none = .ok c2 ∧
      c2.dead = c.dead ∧ c2.left = c.left ∧ c2.right = c.right := by
  have hc := classifyAux_counts img ds de ((maxi - mini + 1).toNat) mini
    { dead := 0, left := 0, right := 0, left_end := le0, right_start := rs0 }
    { dead := 0, left := 0, right := 0, left_end := none, right_start := none }
    rfl rfl rfl
  unfold classifySlots at h ⊢
  rw [h] at hc
  cases h2 : classifyAux img ds de ((maxi - mini + 1).toNat) mini
      { dead := 0, left := 0, right := 0, left_end := none, right_start := none } with
  | error e => rw [h2] at hc; simp [Except.map] at hc
  | ok c2 =>
    rw [h2] at hc
    simp only [Except.map, Except.ok.injEq, Prod.mk.injEq] at hc
    exact ⟨c2, rfl, hc.1.symm, hc.2.1.symm, hc.2.2.symm⟩

/-! ### The dev candidate walk picks the first deadzone with a dead slot -/

/-- Walking a key-sorted candidate list, the deadzone the dev loop settles
on has a dead slot, and a key at most that of every other candidate with a
dead slot. -/
theorem devFindTarget_first (img : Array Int) (mini maxi center : Int) :
    ∀ (l : List (Int × Int)) (le0 rs0 : Option Int) (dz : Int × Int) (c : Classify),
      List.Pairwise (fun a b => keyLe (dzKey center a) (dzKey center b)) l →
      devFindTarget img mini maxi l le0 rs0 = .ok (some (dz, c)) →
      dz ∈ l ∧ 0 < c.dead ∧
        ∀ dz2 ∈ l, ∀ c2, classifySlots img dz2.1 dz2.2 mini maxi none none = .ok c2 →
          0 < c2.dead → keyLe (dzKey center dz) (dzKey center dz2) := by
  intro l
  induction l with
  | nil =>
    intro le0 rs0 dz c hp h
    simp [devFindTarget] at h
  | cons hd tl ih =>
    intro le0 rs0 dz c hp h
    simp only [devFindTarget] at h
    cases hcl : classifySlots img hd.1 hd.2 mini maxi le0 rs0 with
    | error e => rw [hcl, exBind_error] at h; cases h
    | ok ch =>
      rw [hcl, exBind_ok] at h
      by_cases hd0 : ch.dead > 0
      · rw [if_pos hd0] at h
        simp only [Except.ok.injEq, Option.some.injEq, Prod.mk.injEq] at h
        obtain ⟨rfl, rfl⟩ := h
        refine ⟨List.mem_cons_self _ _, hd0, ?_⟩
        intro dz2 hdz2 c2 hc2 hc2d
        rcases List.mem_cons.mp hdz2 with heq2 | hmem
        · rw [heq2]
          exact keyLe_refl _
        · exact (List.pairwise_cons.mp hp).1 dz2 hmem
      · rw [if_neg hd0] at h
        have hr := ih ch.left_end ch.right_start dz c (List.pairwise_cons.mp hp).2 h
        refine ⟨List.mem_cons_of_mem _ hr.1, hr.2.1, ?_⟩
        intro dz2 hdz2 c2 hc2 hc2d
        rcases List.mem_cons.mp hdz2 with heq2 | hmem
        · exfalso
          obtain ⟨c3, hc3, hdead3, _, _⟩ :=
            classifySlots_counts img hd.1 hd.2 mini maxi le0 rs0 ch hcl
          rw [heq2] at hc2
          rw [hc2] at hc3
          injection hc3 with h4
          rw [h4] at hc2d
          omega
        · exact hr.2.2 dz2 hmem c2 hc2 hc2d

/-- C4 counterexample: at the reachable top-level state of a run with
`N = 41`, `M = 5` and stored deadzones `[8, 12]` (length 5) and `[18, 32]`
(length 15) — the even spread puts the slots at `[0, 10, 20, 30, 40]` —
the dev distributor processes `[8, 12]`, while the claimed selection (the
largest intersecting deadzone, which is what the claude file's `max`
computes) is `[18, 32]`. -/
theorem dev_processes_smaller_deadzone :
    (devSelectTarget [(8, 12), (18, 32)] 0 40 #[0, 10, 20, 30, 40] 0 4).map
        (fun o => o.map (fun p => p.1)) = .ok (some (8, 12)) ∧
      pyMaxByKey (dzKey (((0 : Int) + 40).fdiv 2))
        (intersectingDZ [(8, 12), (18, 32)] 0 40) = some (18, 32) ∧
      ((8, 12) : Int × Int) ≠ (18, 32) :=
  ⟨by decide, by decide, by decide⟩

/-- C4 (amended): the dev distributor sorts the intersecting deadzones in
ascending `(length, -midpoint-distance)` order and processes the first one
containing a currently assigned slot — so the processed deadzone *minimizes*
the key among the intersecting deadzones holding a dead slot (the claude
variant, using Python `max` on the same key, picks the largest instead). -/
theorem dev_target_minimizes_key (dzs : List (Int × Int)) (sf ef : Int)
    (img : Array Int) (si ei ds de : Int) (c : Classify)
    (hsel : devSelectTarget dzs sf ef img si ei = .ok (some ((ds, de), c))) :
    (ds, de) ∈ intersectingDZ dzs (min sf ef) (max sf ef) ∧ 0 < c.dead ∧
    ∀ dz2 ∈ intersectingDZ dzs (min sf ef) (max sf ef), ∀ c2,
      classifySlots img dz2.1 dz2.2 (min si ei) (max si ei) none none = .ok c2 →
      0 < c2.dead →
      keyLe (dzKey ((sf + ef).fdiv 2) (ds, de)) (dzKey ((sf + ef).fdiv 2) dz2) := by
  simp only [devSelectTarget] at hsel
  letI : IsTotal (Int × Int)
      (fun a b => keyLe (dzKey ((sf + ef).fdiv 2) a) (dzKey ((sf + ef).fdiv 2) b)) :=
    ⟨fun a b => keyLe_total _ _⟩
  letI : IsTrans (Int × Int)
      (fun a b => keyLe (dzKey ((sf + ef).fdiv 2) a) (dzKey ((sf + ef).fdiv 2) b)) :=
    ⟨fun a b c h1 h2 => keyLe_trans h1 h2⟩
  have hsort := List.sorted_insertionSort
    (fun a b => keyLe (dzKey ((sf + ef).fdiv 2) a) (dzKey ((sf + ef).fdiv 2) b))
    (intersectingDZ dzs (min sf ef) (max sf ef))
  have hr := devFindTarget_first img (min si ei) (max si ei) ((sf + ef).fdiv 2)
    _ none none (ds, de) c hsort hsel
  exact ⟨(List.mem_insertionSort _).mp hr.1, hr.2.1,
    fun dz2 hdz2 => hr.2.2 dz2 ((List.mem_insertionSort _).mpr hdz2)⟩

theorem dev_target_minimizes_key_witness :
    ((8, 12) : Int × Int) ∈ intersectingDZ [(8, 12), (18, 32)] (min 0 40) (max 0 40) ∧
      0 < (Classify.mk 1 1 3 (some 0) (some 2)).dead := by
  have h := dev_target_minimizes_key [(8, 12), (18, 32)] 0 40 #[0, 10, 20, 30, 40]
    0 4 8 12 (Classify.mk 1 1 3 (some 0) (some 2)) (by decide)
  exact ⟨h.1, h.2.1⟩

/-! ### The deadzone store: adding a contained interval is a no-op -/

theorem keyLe_antisymm {p q : Int × Int} (h1 : keyLe p q) (h2 : keyLe q p) :
    p = q := by
  rcases p with ⟨p1, p2⟩
  rcases q with ⟨q1, q2⟩
  simp only [keyLe] at h1 h2
  have h3 : p1 = q1 ∧ p2 = q2 := by omega
  simp [h3.1, h3.2]

/-- Chain condition: walking the list from a current end `ce`, every
interval starts more than one frame after the previous interval's end. -/
def gapChain : Int → List (Int × Int) → Prop
  | _, [] => True
  | ce, (s2, e2) :: rest => ce + 1 < s2 ∧ gapChain e2 rest

/-- Unfolding the store invariant at a cons cell. -/
theorem dzInvB_unfold : ∀ (t : List (Int × Int)) (s e : Int),
    dzInvB ((s, e) :: t) = true →
    (0 ≤ s ∧ s ≤ e) ∧ dzInvB t = true ∧ gapChain e t := by
  intro t
  induction t with
  | nil =>
    intro s e h
    simp only [dzInvB, Bool.and_eq_true, decide_eq_true_eq] at h
    exact ⟨⟨h.1, h.2⟩, rfl, trivial⟩
  | cons hd tl ih =>
    intro s e h
    rcases hd with ⟨s2, e2⟩
    simp only [dzInvB, Bool.and_eq_true, decide_eq_true_eq] at h
    obtain ⟨⟨⟨h0, hse⟩, hgap⟩, htl⟩ := h
    have hrest := ih s2 e2 htl
    exact ⟨⟨h0, hse⟩, htl, hgap, hrest.2.2⟩

/-- Every interval reached through a gap chain starts beyond `b + 1`. -/
theorem gapChain_start_gt : ∀ (t : List (Int × Int)) (b : Int),
    gapChain b t → dzInvB t = true → ∀ p ∈ t, b + 1 < p.1 := by
  intro t
  induction t with
  | nil => intro b _ _ p hp; cases hp
  | cons hd tl ih =>
    intro b hg hi p hp
    rcases hd with ⟨s2, e2⟩
    obtain ⟨hg1, hg2⟩ := hg
    obtain ⟨⟨_, hse2⟩, hitl, _⟩ := dzInvB_unfold tl s2 e2 hi
    rcases List.mem_cons.mp hp with heq | hmem
    · rw [heq]; exact hg1
    · have := ih e2 hg2 hitl p hmem
      omega

/-- Valid stores hold intervals with nonnegative starts and proper order. -/
theorem dzInvB_mem : ∀ (l : List (Int × Int)), dzInvB l = true →
    ∀ p ∈ l, 0 ≤ p.1 ∧ p.1 ≤ p.2 := by
  intro l
  induction l with
  | nil => intro _ p hp; cases hp
  | cons hd tl ih =>
    intro h p hp
    rcases hd with ⟨s, e⟩
    obtain ⟨⟨h0, hse⟩, htl, _⟩ := dzInvB_unfold tl s e h
    rcases List.mem_cons.mp hp with heq | hmem
    · rw [heq]; exact ⟨h0, hse⟩
    · exact ih htl p hmem

/-- Valid stores are sorted in the tuple order. -/
theorem dzInvB_pairwise : ∀ (l : List (Int × Int)), dzInvB l = true →
    List.Pairwise keyLe l := by
  intro l
  induction l with
  | nil => intro _; exact List.Pairwise.nil
  | cons hd tl ih =>
    intro h
    rcases hd with ⟨s, e⟩
    obtain ⟨⟨h0, hse⟩, htl, hgap⟩ := dzInvB_unfold tl s e h
    refine List.Pairwise.cons ?_ (ih htl)
    intro p hp
    have := gapChain_start_gt tl e hgap htl p hp
    exact Or.inl (by omega)

/-- Sorting a sorted list with one appended element is an ordered insert. -/
theorem insertionSort_append_single :
    ∀ (l : List (Int × Int)) (x : Int × Int), List.Pairwise keyLe l →
      List.insertionSort (fun a b => keyLe a b) (l ++ [x]) =
        List.orderedInsert (fun a b => keyLe a b) x l := by
  intro l
  induction l with
  | nil => intro x _; rfl
  | cons a t ih =>
    intro x hp
    have ha_all : ∀ p ∈ t, keyLe a p := (List.pairwise_cons.mp hp).1
    have hLHS : List.insertionSort (fun a b => keyLe a b) ((a :: t) ++ [x]) =
        List.orderedInsert (fun a b => keyLe a b) a
          (List.orderedInsert (fun a b => keyLe a b) x t) := by
      simp only [List.cons_append, List.insertionSort, List.append_eq]
      rw [ih x (List.pairwise_cons.mp hp).2]
    rw [hLHS]
    by_cases hxa : keyLe x a
    · have hOIxt : List.orderedInsert (fun a b => keyLe a b) x t = x :: t := by
        cases t with
        | nil => rfl
        | cons b t2 =>
          simp only [List.orderedInsert]
          rw [if_pos (keyLe_trans hxa (ha_all b (List.mem_cons_self b t2)))]
      rw [hOIxt]
      simp only [List.orderedInsert]
      rw [if_pos hxa]
      by_cases hax : keyLe a x
      · rw [if_pos hax]
        have heq : a = x := keyLe_antisymm hax hxa
        rw [heq]
      · rw [if_neg hax]
        have hOIat : List.orderedInsert (fun a b => keyLe a b) a t = a :: t := by
          cases t with
          | nil => rfl
          | cons b t2 =>
            simp only [List.orderedInsert]
            rw [if_pos (ha_all b (List.mem_cons_self b t2))]
        rw [hOIat]
    · have hax : keyLe a x := (keyLe_total x a).resolve_left hxa
      simp only [List.orderedInsert]
      rw [if_neg hxa]
      cases t with
      | nil =>
        simp only [List.orderedInsert]
        rw [if_pos hax]
      | cons b t2 =>
        simp only [List.orderedInsert]
        by_cases hxb : keyLe x b
        · rw [if_pos hxb]
          simp only [List.orderedInsert]
          rw [if_pos hax]
        · rw [if_neg hxb]
          simp only [List.orderedInsert]
          rw [if_pos (ha_all b (List.mem_cons_self b t2))]

/-- The merge loop rebuilds a gap-chained list unchanged. -/
theorem mergeAux_gap : ∀ (l : List (Int × Int)) (cs ce : Int),
    gapChain ce l → mergeAux cs ce l = (cs, ce) :: l := by
  intro l
  induction l with
  | nil => intro cs ce _; rfl
  | cons hd tl ih =>
    intro cs ce hg
    rcases hd with ⟨s2, e2⟩
    obtain ⟨hg1, hg2⟩ := hg
    simp only [mergeAux]
    rw [if_pos (by omega : s2 > ce + 1)]
    rw [ih s2 e2 hg2]

/-- Merging after an ordered insert of a contained interval gives back the
original store. -/
theorem mergeDeadzones_orderedInsert :
    ∀ (l : List (Int × Int)), dzInvB l = true →
      ∀ (S E s e : Int), (S, E) ∈ l → S ≤ s → s ≤ e → e ≤ E →
        mergeDeadzones (List.orderedInsert (fun a b => keyLe a b) (s, e) l) = l := by
  intro l
  induction l with
  | nil => intro _ S E s e hm; cases hm
  | cons hd tl ih =>
    rcases hd with ⟨a, b⟩
    intro hinv S E s e hmem h1 h2 h3
    obtain ⟨⟨ha0, hab⟩, hitl, hgap⟩ := dzInvB_unfold tl a b hinv
    rcases List.mem_cons.mp hmem with heq | hmem2
    · -- the container is the head interval
      have hSa : S = a := congrArg Prod.fst heq
      have hEb : E = b := congrArg Prod.snd heq
      subst hSa
      subst hEb
      simp only [List.orderedInsert]
      by_cases hle : keyLe (s, e) (S, E)
      · rw [if_pos hle]
        have hsa : s = S := by
          simp only [keyLe] at hle
          omega
        simp only [mergeDeadzones, mergeAux]
        rw [if_neg (by omega : ¬ S > e + 1)]
        have hmax : max e E = E := by omega
        rw [hmax, hsa]
        exact mergeAux_gap tl S E hgap
      · rw [if_neg hle]
        have hOI : List.orderedInsert (fun a b => keyLe a b) (s, e) tl = (s, e) :: tl := by
          rcases tl with _ | ⟨⟨u1, u2⟩, tl2⟩
          · rfl
          · have hu : E + 1 < u1 :=
              gapChain_start_gt ((u1, u2) :: tl2) E hgap hitl (u1, u2)
                (List.mem_cons_self _ _)
            simp only [List.orderedInsert]
            rw [if_pos (show keyLe (s, e) (u1, u2) by simp only [keyLe]; omega)]
        rw [hOI]
        simp only [mergeDeadzones, mergeAux]
        rw [if_neg (by omega : ¬ s > E + 1)]
        have hmax : max E e = E := by omega
        rw [hmax]
        exact mergeAux_gap tl S E hgap
    · -- the container lies in the tail
      have hS1 : b + 1 < S := gapChain_start_gt tl b hgap hitl (S, E) hmem2
      have hnle : ¬ keyLe (s, e) (a, b) := by
        simp only [keyLe]
        omega
      simp only [List.orderedInsert]
      rw [if_neg hnle]
      rcases tl with _ | ⟨⟨u1, u2⟩, tl2⟩
      · cases hmem2
      · obtain ⟨⟨hu0, huu⟩, hitl2, hgap2⟩ := dzInvB_unfold tl2 u1 u2 hitl
        have hub : b + 1 < u1 := by
          obtain ⟨hg1, _⟩ := hgap
          omega
        simp only [List.orderedInsert]
        by_cases hxu : keyLe (s, e) (u1, u2)
        · -- within the overall invariant, the container must then be
          -- the very next interval
          rcases List.mem_cons.mp hmem2 with heq2 | hmem3
          · have hSu : S = u1 := congrArg Prod.fst heq2
            have hEu : E = u2 := congrArg Prod.snd heq2
            have hsu : s = u1 := by
              simp only [keyLe] at hxu
              omega
            rw [if_pos hxu]
            simp only [mergeDeadzones, mergeAux]
            rw [if_pos (by omega : s > b + 1)]
            rw [if_neg (by omega : ¬ u1 > e + 1)]
            have hm2 : max e u2 = u2 := by omega
            rw [hm2, hsu]
            rw [mergeAux_gap tl2 u1 u2 hgap2]
          · exfalso
            have := gapChain_start_gt tl2 u2 hgap2 hitl2 (S, E) hmem3
            simp only [keyLe] at hxu
            omega
        · rw [if_neg hxu]
          have hIH := ih hitl S E s e hmem2 h1 h2 h3
          simp only [List.orderedInsert] at hIH
          rw [if_neg hxu] at hIH
          simp only [mergeDeadzones, mergeAux] at hIH ⊢
          rw [if_pos (by omega : u1 > b + 1)]
          rw [hIH]

/-- C9: adding an interval fully contained in a stored interval leaves the
persisted deadzone set unchanged: no new entry, no split, no end extension.
The `end = end or start` falsy default cannot fire either, because a
contained `[s, e]` with `e = 0` forces `s = e = 0` under the invariant. -/
theorem add_contained_deadzone_unchanged (dzs : List (Int × Int)) (S E s e : Int)
    (hinv : dzInvB dzs = true) (hmem : (S, E) ∈ dzs)
    (h1 : S ≤ s) (h2 : s ≤ e) (h3 : e ≤ E) :
    add_deadzone dzs s e = dzs := by
  have hS0 : 0 ≤ S := (dzInvB_mem dzs hinv (S, E) hmem).1
  have he2 : (if e = 0 then s else e) = e := by
    split
    · omega
    · rfl
  simp only [add_deadzone]
  rw [he2]
  rw [insertionSort_append_single dzs (s, e) (dzInvB_pairwise dzs hinv)]
  exact mergeDeadzones_orderedInsert dzs hinv S E s e hmem h1 h2 h3

theorem add_contained_deadzone_unchanged_witness :
    add_deadzone [(5, 10), (20, 30)] 6 9 = [(5, 10), (20, 30)] :=
  add_contained_deadzone_unchanged [(5, 10), (20, 30)] 5 10 6 9 (by decide)
    (by decide) (by decide) (by decide) (by decide)

end Montage
